import Mathlib

/-!
Verification of the versioned packaging pipeline of `aab` (Anki Add-on
Builder), as implemented in `src/aab/builder.py`, against its
natural-language specification.

The embedding models:
* the version-resolution logic of `AddonBuilder.__init__`;
* the effect trace of `clean_repo` / `create_dist` / `build_dist`;
* the output-name computation and the zip-packaging loop of
  `AddonBuilder._package`;
* the license-copy step `AddonBuilder._copy_licenses`.

The external git collaborator (`aab.git.Git`, not part of the sources)
is modelled from the collaborator contract stated in the specification.
-/

namespace Aab

/-- Python `str[n:]` slicing on a string: drop the first `n` characters. -/
def pySlice (s : String) (n : Nat) : String := ⟨s.data.drop n⟩

/-- Python `os.path.join(a, b)` for a directory path `a` with no trailing
separator and a plain relative name `b`, as produced by `os.walk`. -/
def pathJoin (a b : String) : String := a ++ "/" ++ b

/-! ## Repository state and version resolution -/

/-- Abstract state of the git repository, as far as the builder observes it:
whether an identifiable version tag exists at the current commit, the output
of `git status --porcelain`, and the token the "most recent commit" rule
(selector `"current"`) resolves to (`""` when none can be produced). -/
structure RepoState where
  tagAtHead : Option String
  gitStatus : String
  recentCommit : String
deriving DecidableEq, Repr

/-- Modelled from the spec: `aab.git.Git.parse_version` is not under `src/`;
the collaborator contract in the spec is `parse_version(selector) -> string|empty`.
With no selector it resolves the currently checked-out commit to a version
tag, falling back to the provisional `"dev"` token when the repository has no
identifiable version there; the `"current"` selector applies the "most recent
commit" rule; any other explicit selector is returned as given. -/
def parse_version (st : RepoState) : Option String → String
  | none => st.tagAtHead.getD "dev"
  | some s => if s = "current" then st.recentCommit else s

/-- The version token computed by `AddonBuilder.__init__` before the
emptiness check: `parse_version(version)`, re-resolved with selector
`"current"` when the result is `"dev"` and `git status --porcelain` printed
nothing (the working tree is byte-identical to the last commit). -/
def resolveVersionString (explicit : Option String) (st : RepoState) : String :=
  let v := parse_version st explicit
  if v = "dev" ∧ st.gitStatus = "" then parse_version st (some "current") else v

/-- Full version resolution of `AddonBuilder.__init__`: `none` models the
`sys.exit(1)` taken when the token is empty (falsy). -/
def resolveVersion (explicit : Option String) (st : RepoState) : Option String :=
  let v := resolveVersionString explicit st
  if v = "" then none else some v

/-! ## Filesystem effect traces of the pipeline stages -/

/-- One observable filesystem/collaborator action of the pipeline. -/
inductive Effect where
  | rmTreeDist
  | purgeTrash
  | mkdirDist
  | gitArchive
  | copyLicenses
  | copyChangelog
  | copyOptionalIcons
  | callbackArchive
  | writeManifest
  | uiBuild (qtVersion : String)
  | createQtShim
  | unlinkOut
  | zipOpen
  | zipWrite (entryName : String)
deriving DecidableEq, Repr

/-- Effect trace of `clean_repo()` followed by the rest of
`AddonBuilder.create_dist`: remove `PATH_DIST` when it exists, purge the
trash patterns from the repository, recreate `PATH_DIST`, then
`Git().archive(version, PATH_DIST)`. -/
def createDistTrace (distExists : Bool) : List Effect :=
  (if distExists then [Effect.rmTreeDist] else [])
    ++ [Effect.purgeTrash]
    ++ [Effect.mkdirDist, Effect.gitArchive]

/-- Effect trace of `AddonBuilder.build_dist`: licenses, conditional
changelog, conditional optional icons, conditional archive callback,
manifest, one UI build per requested Qt version, then the Qt shim when the
gui path exists. -/
def buildDistTrace (changelogExists optionalIconsExist hasCallback : Bool)
    (qtVersions : List String) (guiPathExists : Bool) : List Effect :=
  [Effect.copyLicenses]
    ++ (if changelogExists then [Effect.copyChangelog] else [])
    ++ (if optionalIconsExist then [Effect.copyOptionalIcons] else [])
    ++ (if hasCallback then [Effect.callbackArchive] else [])
    ++ [Effect.writeManifest]
    ++ qtVersions.map Effect.uiBuild
    ++ (if guiPathExists then [Effect.createQtShim] else [])

/-! ## Output-name computation of `AddonBuilder._package` -/

/-- The fixed archive extension. -/
def ext : String := "ankiaddon"

/-- Python `"+".join(version.name for version in qt_versions)`. -/
def qtVersionStr (qtVersions : List String) : String :=
  String.intercalate "+" qtVersions

/-- The output file name computed by `AddonBuilder._package`:
`"{repo_name}-{version}-{qt_version_str}{dist}.{ext}"` with `dist` empty for
the default `"local"` distribution type and `"-" + disttype` otherwise. -/
def outName (repoName version : String) (qtVersions : List String)
    (disttype : String) : String :=
  repoName ++ "-" ++ version ++ "-" ++ qtVersionStr qtVersions
    ++ (if disttype = "local" then "" else "-" ++ disttype) ++ "." ++ ext

/-- Modelled from the spec: the packaging-name contract
`{repo_name}-{version}-{targets joined by "+"}[-{dist_type}].{fixed-extension}`,
with the `-{dist_type}` suffix omitted exactly when `dist_type` is the
default `"local"` value. -/
def specOutName (repoName version : String) (qtVersions : List String)
    (disttype : String) : String :=
  let base := repoName ++ "-" ++ version ++ "-"
    ++ String.intercalate "+" qtVersions
  if disttype = "local" then base ++ ".ankiaddon"
  else base ++ "-" ++ disttype ++ ".ankiaddon"

/-! ## String helper lemmas -/

theorem str_append_assoc (a b c : String) : a ++ b ++ c = a ++ (b ++ c) := by
  apply String.ext
  simp [String.data_append, List.append_assoc]

theorem pySlice_pathJoin (b p : String) :
    pySlice (pathJoin b p) (b.length + 1) = p := by
  apply String.ext
  show ((b ++ "/" ++ p).data.drop (b.length + 1)) = p.data
  have h : (b ++ "/" ++ p).data = (b.data ++ ['/']) ++ p.data := by
    rw [String.data_append, String.data_append]
  have hlen : b.length + 1 = (b.data ++ ['/']).length := by
    rw [List.length_append]
    rfl
  rw [h, hlen, List.drop_left]

/-! ## Directory trees and the `os.walk` packaging loop -/

mutual
/-- A directory: its plain file names plus its named subdirectories, in the
order `os.walk` reports them. -/
inductive DirTree where
  | node (files : List String) (subdirs : SubdirList)

/-- A list of named subdirectories. -/
inductive SubdirList where
  | nil
  | cons (name : String) (tree : DirTree) (rest : SubdirList)
end

mutual
/-- The absolute file paths visited by
`for root, dirs, files in os.walk(str(to_zip))`, top-down, joined with
`os.path.join(root, file)`. -/
def walkFiles (base : String) : DirTree → List String
  | .node files subdirs =>
      files.map (fun f => pathJoin base f) ++ walkSubdirs base subdirs

def walkSubdirs (base : String) : SubdirList → List String
  | .nil => []
  | .cons d t rest => walkFiles (pathJoin base d) t ++ walkSubdirs base rest
end

mutual
/-- The same files as paths relative to the root of the tree itself. -/
def relFiles : DirTree → List String
  | .node files subdirs => files ++ relSubdirs subdirs

def relSubdirs : SubdirList → List String
  | .nil => []
  | .cons d t rest => (relFiles t).map (fun p => pathJoin d p) ++ relSubdirs rest
end

/-- The archive entry names written by `AddonBuilder._package`:
`rootlen = len(str(to_zip)) + 1` and each entry is `path[rootlen:]`. -/
def zipEntries (toZip : String) (t : DirTree) : List String :=
  let rootlen := toZip.length + 1
  (walkFiles toZip t).map (fun p => pySlice p rootlen)

mutual
theorem walkFiles_eq (base : String) (t : DirTree) :
    walkFiles base t = (relFiles t).map (fun p => pathJoin base p) :=
  match t with
  | .node files subdirs => by
      rw [walkFiles, relFiles, List.map_append, walkSubdirs_eq base subdirs]

theorem walkSubdirs_eq (base : String) (l : SubdirList) :
    walkSubdirs base l = (relSubdirs l).map (fun p => pathJoin base p) :=
  match l with
  | .nil => by rw [walkSubdirs, relSubdirs]; rfl
  | .cons d t rest => by
      rw [walkSubdirs, relSubdirs, List.map_append,
        walkFiles_eq (pathJoin base d) t, walkSubdirs_eq base rest,
        List.map_map]
      have h : (fun p => pathJoin base p) ∘ (fun p => pathJoin d p)
          = fun p => pathJoin (pathJoin base d) p := by
        funext p
        simp only [Function.comp_apply, pathJoin, str_append_assoc]
      rw [h]
end

theorem zipEntries_eq_relFiles (toZip : String) (t : DirTree) :
    zipEntries toZip t = relFiles t := by
  unfold zipEntries
  rw [walkFiles_eq, List.map_map]
  have h : (fun p => pySlice p (toZip.length + 1))
      ∘ (fun p => pathJoin toZip p) = fun p => p := by
    funext p
    simp only [Function.comp_apply, pySlice_pathJoin]
  rw [h, List.map_id']

/-! ## The packaging run of `AddonBuilder._package`

The zip-writing loop may hit an I/O error at any entry; `failAt = some i`
injects a failure at the `i`-th `myzip.write` call. The `with` block closes
the archive in either case, so the entries written so far remain in the file
at the output path. -/

/-- Run the `myzip.write` loop over `entries`, starting from the entries
already in the archive (`written`); returns the archive contents when the
loop stops and whether it completed without an I/O error. -/
def writeEntries : List String → Option Nat → List String → List String × Bool
  | [], _, written => (written, true)
  | _ :: _, some 0, written => (written, false)
  | e :: rest, some (n + 1), written => writeEntries rest (some n) (written ++ [e])
  | e :: rest, none, written => writeEntries rest none (written ++ [e])

/-- Outcome of one `_package` invocation: its effect trace, the contents of
the file left at the computed output path (`none` = no file there), and the
result (`Except.error` models the propagated I/O exception). -/
structure PackageResult where
  trace : List Effect
  outFile : Option (List String)
  result : Except String Unit
deriving Repr

/-- Behavior of `AddonBuilder._package` from the unlink check on: delete any file at the
output path, open the archive in `"w"` mode (creating an empty file), then
write every walked file under `path[rootlen:]`. `oldOut` is the file found
at the output path before the run. -/
def packageRun (toZip : String) (t : DirTree) (oldOut : Option (List String))
    (failAt : Option Nat) : PackageResult :=
  let entries := zipEntries toZip t
  -- if out_path.exists(): out_path.unlink() — then ZipFile(str(out_path), "w")
  -- creates the file afresh, so the written contents never include oldOut
  let loop := writeEntries entries failAt []
  { trace := (if oldOut.isSome then [Effect.unlinkOut] else [])
      ++ [Effect.zipOpen] ++ loop.1.map Effect.zipWrite
    outFile := some loop.1
    result := if loop.2 then Except.ok () else Except.error "IOError" }

theorem writeEntries_none (entries : List String) :
    ∀ written, writeEntries entries none written = (written ++ entries, true) := by
  induction entries with
  | nil => intro written; rw [writeEntries, List.append_nil]
  | cons e rest ih =>
      intro written
      rw [writeEntries, ih (written ++ [e]), List.append_assoc]
      rfl

theorem writeEntries_fail (entries : List String) :
    ∀ i written, i < entries.length →
      writeEntries entries (some i) written = (written ++ entries.take i, false) := by
  induction entries with
  | nil => intro i written h; exact absurd h (by simp)
  | cons e rest ih =>
      intro i written h
      match i with
      | 0 => rw [writeEntries, List.take_zero, List.append_nil]
      | n + 1 =>
          rw [writeEntries, ih n (written ++ [e]) (by simpa using h),
            List.take_succ_cons, List.append_assoc]
          rfl

/-! ## The license-copy step `AddonBuilder._copy_licenses`

Each candidate directory is `none` when `path.is_dir()` is false, otherwise
the list of file names inside it. `path.glob("LICENSE*")` matches the names
starting with `LICENSE`; each match is copied to
`self._path_dist_module / (file.stem + ".txt")`. -/

/-- Index of the last `'.'` in a character list, if any
(Python `str.rfind('.')` with `-1` mapped to `none`). -/
def revFindDot : List Char → Option Nat
  | [] => none
  | c :: rest =>
      match revFindDot rest with
      | some i => some (i + 1)
      | none => if c = '.' then some 0 else none

/-- Python `pathlib.PurePath.stem`: the file name without its last suffix; a dot at
position 0 or at the very end does not start a suffix. -/
def stem (name : String) : String :=
  match revFindDot name.data with
  | some i => if 0 < i ∧ i < name.length - 1 then ⟨name.data.take i⟩ else name
  | none => name

/-- Character-wise prefix test (structural, so it evaluates). -/
def startsWithChars : List Char → List Char → Bool
  | [], _ => true
  | _ :: _, [] => false
  | p :: ps, c :: cs => p == c && startsWithChars ps cs

/-- Matching of a file name against the literal-prefix pattern
`"LICENSE*"` used by `path.glob("LICENSE*")`: the name starts with
`LICENSE`. -/
def globLicense (f : String) : Bool := startsWithChars "LICENSE".data f.data

/-- The target file names written into the module directory by
`AddonBuilder._copy_licenses`, given the candidate directories in order. -/
def copy_licenses (pathsLicenses : List (Option (List String))) : List String :=
  (pathsLicenses.map (fun d =>
    match d with
    | none => []
    | some files =>
        (files.filter (fun f => globLicense f)).map
          (fun f => stem f ++ ".txt"))).flatten

/-! ## The full pipeline `AddonBuilder.__init__` + `AddonBuilder.build` -/

/-- Everything one invocation of the builder observes: the git state, the
explicit version override, the filesystem conditions probed by the stages,
the requested Qt versions and distribution type, the module subtree to zip,
and the injected packaging failure point. -/
structure BuildInput where
  explicitVersion : Option String
  repo : RepoState
  distExists : Bool
  changelogExists : Bool
  optionalIconsExist : Bool
  hasCallback : Bool
  qtVersions : List String
  disttype : String
  guiPathExists : Bool
  repoName : String
  toZipPath : String
  moduleTree : DirTree
  outOld : Option (List String)
  failAt : Option Nat

/-- One full run: `AddonBuilder(version)` (which exits when no version token
can be produced, before touching any file) followed by
`build(qt_versions, disttype)`. Returns the effect trace and either the
output file name or the error. -/
def buildRun (inp : BuildInput) : List Effect × Except String String :=
  match resolveVersion inp.explicitVersion inp.repo with
  | none => ([], Except.error "Error: Version could not be determined through Git")
  | some v =>
      let pkg := packageRun inp.toZipPath inp.moduleTree inp.outOld inp.failAt
      (createDistTrace inp.distExists
        ++ buildDistTrace inp.changelogExists inp.optionalIconsExist
            inp.hasCallback inp.qtVersions inp.guiPathExists
        ++ pkg.trace,
       match pkg.result with
       | Except.ok _ => Except.ok (outName inp.repoName v inp.qtVersions inp.disttype)
       | Except.error e => Except.error e)

/-! ## Spec-side formulations and example inputs -/

/-- Modelled from the spec: the augmentation steps as a tagged list, each
carrying its skip-predicate, in the order the spec fixes them — license
copy, changelog copy, optional-icons copy, caller-supplied callback,
manifest generation. -/
def augmentStepList (changelogExists optionalIconsExist hasCallback : Bool) :
    List (Bool × Effect) :=
  [(true, Effect.copyLicenses),
   (changelogExists, Effect.copyChangelog),
   (optionalIconsExist, Effect.copyOptionalIcons),
   (hasCallback, Effect.callbackArchive),
   (true, Effect.writeManifest)]

/-- Modelled from the spec: the full augmentation order — the tagged steps
above, then resource compilation once per target in the caller-given order,
then (only after all targets, only if the UI-definitions directory exists)
the compatibility shim. -/
def augmentSpecTrace (changelogExists optionalIconsExist hasCallback : Bool)
    (qtVersions : List String) (guiPathExists : Bool) : List Effect :=
  ((augmentStepList changelogExists optionalIconsExist hasCallback).filter
      Prod.fst).map Prod.snd
    ++ qtVersions.map Effect.uiBuild
    ++ (([(guiPathExists, Effect.createQtShim)].filter Prod.fst).map Prod.snd)

/-- The example module subtree from the spec: files `a.py` and `sub/b.py`. -/
def exTree : DirTree :=
  DirTree.node ["a.py"]
    (SubdirList.cons "sub" (DirTree.node ["b.py"] SubdirList.nil) SubdirList.nil)

/-- A build input whose repository is untagged, clean, and has no resolvable
recent-commit token, so version resolution fails. -/
def abortInput : BuildInput :=
  ⟨none, ⟨none, "", ""⟩, true, true, false, false, ["qt6"], "local", true,
   "foo", "/r/dist/src/m", exTree, none, none⟩

/-- A build input with an explicit version and an empty target list. -/
def emptyTargetsInput : BuildInput :=
  ⟨some "1.2.3", ⟨none, "", "v0"⟩, true, false, false, false, [], "local",
   false, "foo", "/r/dist/src/m", exTree, none, none⟩

/-- Closed-string rewrites used when normalizing output names. -/
theorem dot_ext_lit : ("." : String) ++ "ankiaddon" = ".ankiaddon" := rfl

theorem dash_dot_ext_lit : ("-" : String) ++ ".ankiaddon" = "-.ankiaddon" := rfl

/-! ## Claim theorems -/

/-- C1: with no explicit override and no identifiable version at the
current commit, resolution yields the provisional `"dev"` token when the
working tree is modified (`git status --porcelain` nonempty); when the
working tree is byte-identical to the last commit the builder re-resolves
with the "most recent commit" rule (`parse_version` at selector
`"current"`) instead of keeping the provisional token. -/
theorem untagged_resolution (st : RepoState) (h : st.tagAtHead = none) :
    (st.gitStatus ≠ "" → resolveVersion none st = some "dev") ∧
    (st.gitStatus = "" →
      resolveVersionString none st = parse_version st (some "current")) := by
  constructor
  · intro hs
    unfold resolveVersion resolveVersionString parse_version
    rw [h]
    simp [hs]
  · intro hs
    unfold resolveVersionString parse_version
    rw [h]
    simp [hs]

theorem untagged_resolution_witness :
    (RepoState.mk none "M x" "v1").tagAtHead = none ∧
    resolveVersion none (RepoState.mk none "M x" "v1") = some "dev" :=
  ⟨rfl, (untagged_resolution (RepoState.mk none "M x" "v1") rfl).1 (by decide)⟩

/-- C2: when version resolution produces no usable token, the run aborts
with an error and its effect trace is empty — no working-area deletion,
trash purge, export, augmentation, or packaging happens. -/
theorem abort_before_effects (inp : BuildInput)
    (h : resolveVersion inp.explicitVersion inp.repo = none) :
    (buildRun inp).1 = [] ∧
    (buildRun inp).2
      = Except.error "Error: Version could not be determined through Git" := by
  unfold buildRun
  rw [h]
  exact ⟨rfl, rfl⟩

theorem abort_before_effects_witness :
    resolveVersion abortInput.explicitVersion abortInput.repo = none ∧
    (buildRun abortInput).1 = [] :=
  ⟨by decide, (abort_before_effects abortInput (by decide)).1⟩

/-- C3: the output file name is
`{repo_name}-{version}-{targets joined by "+"}[-{dist_type}].ankiaddon`,
with the `-{dist_type}` suffix present exactly when the distribution type
is not the default `"local"`; in particular the two examples given in the spec. -/
theorem outName_matches_spec :
    (∀ r v ts d, outName r v ts d = specOutName r v ts d) ∧
    outName "foo" "1.2.3" ["qt5", "qt6"] "local"
      = "foo-1.2.3-qt5+qt6.ankiaddon" ∧
    outName "foo" "1.2.3" ["qt5", "qt6"] "beta"
      = "foo-1.2.3-qt5+qt6-beta.ankiaddon" := by
  refine ⟨?_, by decide, by decide⟩
  intro r v ts d
  unfold outName specOutName qtVersionStr ext
  by_cases hd : d = "local"
  · simp [hd, str_append_assoc, String.append_empty, String.empty_append,
      dot_ext_lit]
  · simp [hd, str_append_assoc, String.append_empty, String.empty_append,
      dot_ext_lit]

/-- C4: packaging writes exactly one archive entry per file found by the
recursive walk of the zipped subtree, each entry named by the path of the
file relative to the root of the subtree; the example subtree from the spec
yields entries
`a.py` and `sub/b.py`. -/
theorem archive_entries_relative :
    (∀ toZip t, zipEntries toZip t = relFiles t) ∧
    (∀ toZip t, (zipEntries toZip t).length = (walkFiles toZip t).length) ∧
    zipEntries "/r/dist/src/m" exTree = ["a.py", "sub/b.py"] := by
  refine ⟨zipEntries_eq_relFiles, ?_, by decide⟩
  intro toZip t
  unfold zipEntries
  rw [List.length_map]

/-- C5: a pre-existing file at the output path is unlinked before anything
is written (the unlink is the first effect of the packaging trace), a successful
re-run leaves exactly the new entry set at that path, and the file left
behind never depends on the pre-existing content. -/
theorem package_overwrites (toZip : String) (t : DirTree)
    (oldEntries : List String) (failAt : Option Nat) :
    (packageRun toZip t (some oldEntries) failAt).trace.head?
      = some Effect.unlinkOut ∧
    (packageRun toZip t (some oldEntries) none).outFile
      = some (zipEntries toZip t) ∧
    (packageRun toZip t (some oldEntries) failAt).outFile
      = (packageRun toZip t none failAt).outFile := by
  refine ⟨?_, ?_, rfl⟩
  · unfold packageRun
    simp
  · unfold packageRun
    simp [writeEntries_none]

/-- C6 (counterexample): an I/O failure at the second entry write makes the
run error, yet a partially written archive holding only the first entry is
left at the final output path — contradicting the claim that no partial
output file remains there. -/
theorem package_failed_write_counterexample :
    (packageRun "/r/dist/src/m" exTree none (some 1)).result
      = Except.error "IOError" ∧
    (packageRun "/r/dist/src/m" exTree none (some 1)).outFile
      = some ["a.py"] ∧
    (packageRun "/r/dist/src/m" exTree none (some 1)).outFile ≠ none :=
  ⟨rfl, by decide, by decide⟩

/-- C6 (amended): the packager writes directly to the final output path and
performs no temporary-path rename nor cleanup on failure — an I/O error at
the `i`-th entry write propagates as an error and leaves the partial
archive, holding exactly the first `i` entries, at the final output
path. -/
theorem package_failed_write (toZip : String) (t : DirTree)
    (oldOut : Option (List String)) (i : Nat)
    (h : i < (zipEntries toZip t).length) :
    (packageRun toZip t oldOut (some i)).result = Except.error "IOError" ∧
    (packageRun toZip t oldOut (some i)).outFile
      = some ((zipEntries toZip t).take i) := by
  simp only [packageRun]
  rw [writeEntries_fail (zipEntries toZip t) i [] h]
  simp

theorem package_failed_write_witness :
    1 < (zipEntries "/r/dist/src/m" exTree).length ∧
    (packageRun "/r/dist/src/m" exTree none (some 1)).outFile
      = some ((zipEntries "/r/dist/src/m" exTree).take 1) :=
  ⟨by decide, (package_failed_write "/r/dist/src/m" exTree none 1 (by decide)).2⟩

theorem copy_licenses_cons_some (files : List String)
    (rest : List (Option (List String))) :
    copy_licenses (some files :: rest)
      = (files.filter (fun f => globLicense f)).map
          (fun f => stem f ++ ".txt")
        ++ copy_licenses rest := rfl

theorem copy_licenses_cons_none (rest : List (Option (List String))) :
    copy_licenses (none :: rest) = copy_licenses rest := rfl

theorem mem_copy_licenses (t : String) (dirs : List (Option (List String))) :
    t ∈ copy_licenses dirs ↔
      ∃ d, d ∈ dirs ∧ ∃ files, d = some files ∧
        ∃ f, f ∈ files ∧ globLicense f = true
          ∧ t = stem f ++ ".txt" := by
  induction dirs with
  | nil => simp [copy_licenses]
  | cons d rest ih =>
      cases d with
      | none =>
          rw [copy_licenses_cons_none, ih]
          constructor
          · rintro ⟨d, hd, hrest⟩
            exact ⟨d, List.mem_cons_of_mem _ hd, hrest⟩
          · rintro ⟨d, hd, files, hfiles, hrest⟩
            rcases List.mem_cons.mp hd with h | h
            · subst h
              exact (Option.noConfusion hfiles)
            · exact ⟨d, h, files, hfiles, hrest⟩
      | some files =>
          rw [copy_licenses_cons_some, List.mem_append, ih]
          constructor
          · rintro (hin | ⟨d, hd, hrest⟩)
            · rcases List.mem_map.mp hin with ⟨f, hf, rfl⟩
              rcases List.mem_filter.mp hf with ⟨hfin, hstart⟩
              exact ⟨some files, List.mem_cons_self _ _, files, rfl, f, hfin,
                hstart, rfl⟩
            · exact ⟨d, List.mem_cons_of_mem _ hd, hrest⟩
          · rintro ⟨d, hd, files2, hfiles2, f, hfin, hstart, rfl⟩
            rcases List.mem_cons.mp hd with h | h
            · subst h
              left
              obtain rfl : files = files2 := by
                injection hfiles2
              exact List.mem_map.mpr
                ⟨f, List.mem_filter.mpr ⟨hfin, hstart⟩, rfl⟩
            · exact Or.inr ⟨d, h, files2, hfiles2, f, hfin, hstart, rfl⟩

/-- C7: each existing candidate license directory contributes exactly its
`LICENSE*`-matching files, renamed to `<stem>.txt` (so `LICENSE.txt` keeps
its name); a missing candidate directory is skipped, and zero matches
produce an empty result with no error. -/
theorem licenses_copied :
    (∀ files rest, copy_licenses (some files :: rest)
        = (files.filter (fun f => globLicense f)).map
            (fun f => stem f ++ ".txt")
          ++ copy_licenses rest) ∧
    (∀ rest, copy_licenses (none :: rest) = copy_licenses rest) ∧
    (∀ dirs t, t ∈ copy_licenses dirs ↔
      ∃ d, d ∈ dirs ∧ ∃ files, d = some files ∧
        ∃ f, f ∈ files ∧ globLicense f = true
          ∧ t = stem f ++ ".txt") ∧
    copy_licenses [none, none] = [] ∧
    copy_licenses [some ["LICENSE.txt", "README.md"], none]
      = ["LICENSE.txt"] := by
  refine ⟨fun files rest => copy_licenses_cons_some files rest,
    copy_licenses_cons_none, fun dirs t => mem_copy_licenses t dirs,
    by decide, by decide⟩

/-- C8: the augmentation steps run in the fixed order — license copy,
changelog copy (only if the changelog exists), optional-icons copy (only if
that directory exists), the caller-supplied callback (only if supplied,
before manifest generation), manifest generation, one resource compilation
per target in the caller-given order, and finally (only after all targets,
only if the UI-definitions directory exists) the compatibility shim. -/
theorem augment_order (changelogExists optionalIconsExist hasCallback : Bool)
    (qtVersions : List String) (guiPathExists : Bool) :
    buildDistTrace changelogExists optionalIconsExist hasCallback qtVersions
        guiPathExists
      = augmentSpecTrace changelogExists optionalIconsExist hasCallback
          qtVersions guiPathExists := by
  cases changelogExists <;> cases optionalIconsExist <;> cases hasCallback <;>
    cases guiPathExists <;>
      simp [buildDistTrace, augmentSpecTrace, augmentStepList]

/-- C9: the working area is removed when present and recreated before the
tree export, the trash purge runs unconditionally — also when no prior
build output exists — and the trace of every non-aborted build starts with
exactly this clean/recreate/export prefix. -/
theorem clean_rebuild_order :
    createDistTrace true
      = [Effect.rmTreeDist, Effect.purgeTrash, Effect.mkdirDist,
         Effect.gitArchive] ∧
    createDistTrace false
      = [Effect.purgeTrash, Effect.mkdirDist, Effect.gitArchive] ∧
    (∀ b, Effect.purgeTrash ∈ createDistTrace b) ∧
    (∀ inp, (buildRun inp).1 = [] ∨
      ∃ rest, (buildRun inp).1 = createDistTrace inp.distExists ++ rest) := by
  refine ⟨rfl, rfl, ?_, ?_⟩
  · intro b; cases b <;> decide
  · intro inp
    cases hv : resolveVersion inp.explicitVersion inp.repo with
    | none => left; simp [buildRun, hv]
    | some v =>
        right
        refine ⟨buildDistTrace inp.changelogExists inp.optionalIconsExist
          inp.hasCallback inp.qtVersions inp.guiPathExists
          ++ (packageRun inp.toZipPath inp.moduleTree inp.outOld
              inp.failAt).trace, ?_⟩
        simp [buildRun, hv, List.append_assoc]

/-- C10: with an empty target list the joined targets segment is the empty
string, so the name keeps a bare hyphen right before the extension —
`{repo_name}-{version}-.ankiaddon` — and packaging still succeeds. -/
theorem empty_targets_name :
    (∀ r v, outName r v [] "local" = r ++ "-" ++ v ++ "-.ankiaddon") ∧
    outName "foo" "1.2.3" [] "local" = "foo-1.2.3-.ankiaddon" ∧
    (buildRun emptyTargetsInput).2 = Except.ok "foo-1.2.3-.ankiaddon" := by
  refine ⟨?_, by decide, rfl⟩
  intro r v
  unfold outName qtVersionStr ext
  have h : String.intercalate "+" ([] : List String) = "" := rfl
  rw [h]
  simp [str_append_assoc, String.append_empty, String.empty_append,
    dot_ext_lit, dash_dot_ext_lit]

end Aab
